import Mathlib

/-!
# Verification of OpenTTD `src/core/smallvec_type.hpp`

Shallow embedding of the `SmallVector` container family.  The C++ class
`SmallVector<T, S> : public std::vector<T>` stores its elements in the
inherited `std::vector<T>`; we model that contiguous sequence as a
`List α`.  The allocation-step template parameter `S` appears in the C++
class head but is never used by any member, so here it is likewise a
phantom `Nat` parameter of the structure.

Pointers into the contiguous buffer (`Begin()`, `End()`, the argument of
`Insert`) are modelled as offsets from `Begin()`: `Begin()` is offset `0`
and `End()` is offset `size`.  A possibly-out-of-range pointer argument
is an `Int` offset, so that positions before `Begin()` are expressible.
-/

/-- The container: the inherited `std::vector<T>` contents as a list.
`S` is the C++ allocation-step template parameter, unused by every
member function of the source class. -/
structure SmallVector (α : Type) (S : Nat) where
  data : List α
deriving Repr, DecidableEq

namespace SmallVector

variable {α : Type} {S X : Nat}

/-- `std::vector::size()`. -/
def size (v : SmallVector α S) : Nat := v.data.length

/-- Element stored at index `i` of the contiguous buffer (`operator[]`),
`none` when `i` is out of range. -/
def elemAt (v : SmallVector α S) (i : Nat) : Option α := v.data[i]?

/-- `Begin()`: pointer to the first slot, as an offset into the buffer. -/
def Begin (_ : SmallVector α S) : Nat := 0

/-- `End()`: pointer one past the last valid item, as an offset:
`data() + size()`. -/
def End (v : SmallVector α S) : Nat := v.data.length

/-- The generic copy constructor `SmallVector(const SmallVector<T, X> &other)`:
copies the underlying `std::vector<T>` contents; the receiver has its own
step parameter `S`. -/
def copyCtor (other : SmallVector α X) : SmallVector α S := ⟨other.data⟩

/-- The generic assignment `operator=(const SmallVector<T, X> &other)`:
replaces the receiver's contents with `other`'s via
`std::vector<T>::operator=`. -/
def assign (_self : SmallVector α S) (other : SmallVector α X) : SmallVector α S :=
  ⟨other.data⟩

/-- `std::vector::emplace_back(item)` / appending one element at the end. -/
def append (v : SmallVector α S) (item : α) : SmallVector α S :=
  ⟨v.data ++ [item]⟩

/-- Core of `Insert`: `std::vector<T>::insert(begin() + start)` inserts one
new (default-constructed) element so that it sits at index `start`,
shifting the elements previously at `start` and after one slot later.
The returned handle `Begin() + start` is the offset `start`. -/
def Insert [Inhabited α] (v : SmallVector α S) (start : Nat) :
    SmallVector α S × Nat :=
  (⟨v.data.take start ++ default :: v.data.drop start⟩, start)

/-- `Insert` with its `assert(item >= this->Begin() && item <= this->End())`
made explicit: the pointer argument is an `Int` offset from `Begin()`;
when the assertion fails no mutation happens (`none`). -/
def InsertChecked [Inhabited α] (v : SmallVector α S) (item : Int) :
    Option (SmallVector α S × Nat) :=
  if 0 ≤ item ∧ item ≤ (v.data.length : Int) then
    some (v.Insert item.toNat)
  else
    none

/-- Store a value through a handle (offset) into the buffer:
`*p = value`. -/
def writeAt (v : SmallVector α S) (p : Nat) (value : α) : SmallVector α S :=
  ⟨v.data.set p value⟩

/-- The spec's `InsertAt(position, value)`: the documented usage of the
source's `Insert` — insert a fresh element at the position and store
`value` through the returned handle. -/
def InsertAt [Inhabited α] (v : SmallVector α S) (i : Nat) (value : α) :
    SmallVector α S × Nat :=
  let r := v.Insert i
  (r.1.writeAt r.2 value, r.2)

/-- `std::find(begin(), end(), item)` over the element list: offset of the
first element equal to `item`, scanning from the front; `none` plays the
role of the end iterator. -/
def findFirst [DecidableEq α] (item : α) : List α → Option Nat
  | [] => none
  | x :: xs => if x = item then some 0 else (findFirst item xs).map (· + 1)

/-- `FindIndex(item)`: position of the first occurrence, or `-1` when the
item is not present. -/
def FindIndex [DecidableEq α] (v : SmallVector α S) (item : α) : Int :=
  match findFirst item v.data with
  | some i => (i : Int)
  | none => -1

/-- `Include(item)`: tests whether the item is present; appends it at the
end if not; returns whether it was already present. -/
def Include [DecidableEq α] (v : SmallVector α S) (item : α) :
    SmallVector α S × Bool :=
  let is_member := (findFirst item v.data).isSome
  (if is_member then v else v.append item, is_member)

end SmallVector

/-- The free helper `grow(vec, num)`: resizes the vector from `pos = size`
to `pos + num` (the `num` new elements default-constructed) and returns
`data() + pos`, the handle to the first new element, as an offset. -/
def grow {α : Type} [Inhabited α] (vec : List α) (num : Nat) :
    List α × Nat :=
  (vec ++ List.replicate num default, vec.length)

/-!
## Owning variants

`AutoFreeSmallVector` and `AutoDeleteSmallVector` store raw pointers and,
on `Clear()` (also invoked by the destructor), apply `free` respectively
`delete` to every stored element before emptying the vector.  A pointer is
modelled as `Option Nat` — `none` is the null pointer, `some a` points to
address `a`.  The heap tracks, per address, how many live allocations
target it (`allocCount`, normally 0 or 1) and how many times the pointee's
destructor has run (`dtorRuns`), so that a raw `free` and a full `delete`
are distinguishable and "invoked exactly once" is expressible. -/

/-- A pointer element: `none` models the C++ null pointer. -/
abbrev Ptr := Option Nat

/-- Per-address heap bookkeeping. -/
structure Pointee where
  allocCount : Nat
  dtorRuns : Nat
deriving Repr, DecidableEq

/-- The heap: bookkeeping per address. -/
abbrev Heap := Nat → Pointee

/-- C `free(p)`: a no-op on the null pointer, otherwise releases one
allocation of the address without running any destructor. -/
def freeCall (h : Heap) (p : Ptr) : Heap :=
  match p with
  | none => h
  | some a => fun x =>
    if x = a then ⟨(h a).allocCount - 1, (h a).dtorRuns⟩ else h x

/-- C++ `delete p`: a no-op on the null pointer, otherwise runs the
pointee's destructor and releases its allocation. -/
def deleteCall (h : Heap) (p : Ptr) : Heap :=
  match p with
  | none => h
  | some a => fun x =>
    if x = a then ⟨(h a).allocCount - 1, (h a).dtorRuns + 1⟩ else h x

/-- `AutoFreeSmallVector::Clear()`: `free` each stored element front to
back, then `std::vector::clear()`.  Returns the heap after the loop and
the emptied container. -/
def AutoFreeClear {S : Nat} (h : Heap) (v : SmallVector Ptr S) :
    Heap × SmallVector Ptr S :=
  (v.data.foldl freeCall h, ⟨[]⟩)

/-- `AutoDeleteSmallVector::Clear()`: `delete` each stored element front
to back, then `std::vector::clear()`. -/
def AutoDeleteClear {S : Nat} (h : Heap) (v : SmallVector Ptr S) :
    Heap × SmallVector Ptr S :=
  (v.data.foldl deleteCall h, ⟨[]⟩)

/-!
## Helper lemmas
-/

namespace SmallVector

variable {α : Type}

lemma findFirst_isSome_iff [DecidableEq α] (item : α) (l : List α) :
    (findFirst item l).isSome ↔ item ∈ l := by
  induction l with
  | nil => simp [findFirst]
  | cons x xs ih =>
    by_cases hx : x = item
    · simp [findFirst, hx]
    · rw [findFirst, if_neg hx]
      have hmap : (Option.map (· + 1) (findFirst item xs)).isSome
          = (findFirst item xs).isSome := by
        cases findFirst item xs <;> rfl
      rw [hmap, ih, List.mem_cons]
      constructor
      · exact Or.inr
      · rintro (h | h)
        · exact absurd h.symm hx
        · exact h

lemma findFirst_spec_some [DecidableEq α] (item : α) :
    ∀ (l : List α) (i : Nat), findFirst item l = some i →
      l[i]? = some item ∧ ∀ j, j < i → l[j]? ≠ some item := by
  intro l
  induction l with
  | nil => intro i h; simp [findFirst] at h
  | cons x xs ih =>
    intro i h
    by_cases hx : x = item
    · rw [findFirst, if_pos hx] at h
      obtain rfl : (0 : Nat) = i := Option.some_injective _ h
      exact ⟨by simp [hx], fun j hj => absurd hj (Nat.not_lt_zero j)⟩
    · rw [findFirst, if_neg hx] at h
      obtain ⟨k, hk, rfl⟩ := Option.map_eq_some'.mp h
      obtain ⟨h1, h2⟩ := ih k hk
      refine ⟨by simpa using h1, fun j hj => ?_⟩
      cases j with
      | zero => simpa using fun h => hx h
      | succ j' =>
        rw [List.getElem?_cons_succ]
        exact h2 j' (Nat.lt_of_succ_lt_succ hj)

@[ext] lemma ext {S : Nat} {v w : SmallVector α S} (h : v.data = w.data) :
    v = w := by
  cases v; cases w; cases h; rfl

lemma InsertAt_data [Inhabited α] {S : Nat} (v : SmallVector α S)
    (i : Nat) (value : α) (h : i ≤ v.data.length) :
    (v.InsertAt i value).1.data = v.data.take i ++ value :: v.data.drop i := by
  have hlen : (v.data.take i).length = i := by
    simp [List.length_take]; omega
  show (v.data.take i ++ default :: v.data.drop i).set i value = _
  rw [List.set_append, hlen, if_neg (Nat.lt_irrefl i), Nat.sub_self]
  rfl

end SmallVector

lemma count_one_of_nodup_mem (l : List Ptr) (p : Ptr) (hnd : l.Nodup)
    (hmem : p ∈ l) : l.count p = 1 := by
  induction l with
  | nil => simp at hmem
  | cons x xs ih =>
    rw [List.nodup_cons] at hnd
    rcases List.mem_cons.mp hmem with rfl | hp
    · rw [List.count_cons_self]
      have hz : xs.count p = 0 := by
        rw [List.count_eq_zero]
        exact hnd.1
      rw [hz]
    · have hne : p ≠ x := fun he => hnd.1 (he ▸ hp)
      rw [List.count_cons_of_ne hne]
      exact ih hnd.2 hp

lemma foldl_freeCall_apply (l : List Ptr) (h : Heap) (a : Nat) :
    (l.foldl freeCall h) a =
      ⟨(h a).allocCount - l.count (some a), (h a).dtorRuns⟩ := by
  induction l generalizing h with
  | nil => simp
  | cons p rest ih =>
    rw [List.foldl_cons, ih]
    cases p with
    | none =>
      simp only [freeCall]
      rw [List.count_cons_of_ne (by simp)]
    | some b =>
      simp only [freeCall]
      by_cases hb : a = b
      · subst hb
        rw [if_pos rfl, List.count_cons_self]
        simp only [Pointee.mk.injEq]
        exact ⟨by omega, trivial⟩
      · rw [if_neg hb, List.count_cons_of_ne (by simp [hb])]

lemma foldl_deleteCall_apply (l : List Ptr) (h : Heap) (a : Nat) :
    (l.foldl deleteCall h) a =
      ⟨(h a).allocCount - l.count (some a),
        (h a).dtorRuns + l.count (some a)⟩ := by
  induction l generalizing h with
  | nil => simp
  | cons p rest ih =>
    rw [List.foldl_cons, ih]
    cases p with
    | none =>
      simp only [deleteCall]
      rw [List.count_cons_of_ne (by simp)]
    | some b =>
      simp only [deleteCall]
      by_cases hb : a = b
      · subst hb
        rw [if_pos rfl, List.count_cons_self]
        simp only [Pointee.mk.injEq]
        exact ⟨by omega, by omega⟩
      · rw [if_neg hb, List.count_cons_of_ne (by simp [hb])]

/-!
## Claim theorems
-/

/-- Claim C1: for every container state and every valid position pointing
at index `i` (`i ≤ size`), `InsertAt(p, v)` makes the element at index
`i` equal to `v`, leaves the elements previously before `i` in place,
shifts the elements previously at `i` and onward — unchanged and in their
original order — to start at index `i + 1`, increases the size by one,
and returns a handle to the newly inserted element at index `i`. -/
theorem InsertAt_correct {α : Type} [Inhabited α] {S : Nat}
    (v : SmallVector α S) (i : Nat) (value : α) (h : i ≤ v.size) :
    (v.InsertAt i value).2 = i ∧
    (v.InsertAt i value).1.size = v.size + 1 ∧
    (v.InsertAt i value).1.elemAt i = some value ∧
    (∀ j, j < i → (v.InsertAt i value).1.elemAt j = v.elemAt j) ∧
    (∀ j, i ≤ j → (v.InsertAt i value).1.elemAt (j + 1) = v.elemAt j) := by
  have h' : i ≤ v.data.length := h
  have hd := v.InsertAt_data i value h'
  have hlen : (v.data.take i).length = i := by
    simp [List.length_take]; omega
  refine ⟨rfl, ?_, ?_, ?_, ?_⟩
  · show (v.InsertAt i value).1.data.length = v.data.length + 1
    rw [hd]
    simp [List.length_append]
    omega
  · show (v.InsertAt i value).1.data[i]? = some value
    rw [hd, List.getElem?_append_right (le_of_eq hlen), hlen, Nat.sub_self,
      List.getElem?_cons_zero]
  · intro j hj
    show (v.InsertAt i value).1.data[j]? = v.data[j]?
    rw [hd, List.getElem?_append, if_pos (by omega : j < (v.data.take i).length),
      List.getElem?_take, if_pos hj]
  · intro j hj
    show (v.InsertAt i value).1.data[j + 1]? = v.data[j]?
    rw [hd, List.getElem?_append_right (by omega : (v.data.take i).length ≤ j + 1),
      hlen]
    have h2 : j + 1 - i = (j - i) + 1 := by omega
    rw [h2, List.getElem?_cons_succ, List.getElem?_drop]
    have h3 : i + (j - i) = j := by omega
    rw [h3]

/-- Witness for C1 at the concrete scenario `[1, 2, 3].InsertAt 1 9`. -/
theorem InsertAt_correct_witness :
    1 ≤ (⟨[1, 2, 3]⟩ : SmallVector Nat 4).size ∧
    ((⟨[1, 2, 3]⟩ : SmallVector Nat 4).InsertAt 1 9).1.elemAt 1 = some 9 :=
  ⟨by decide,
   (InsertAt_correct (⟨[1, 2, 3]⟩ : SmallVector Nat 4) 1 9 (by decide)).2.2.1⟩

/-- Claim C5: inserting at the `End()` position is observationally
equivalent to appending: the resulting container (hence its sequence and
its size) is the same. -/
theorem InsertAt_End_eq_append {α : Type} [Inhabited α] {S : Nat}
    (v : SmallVector α S) (value : α) :
    (v.InsertAt v.End value).1 = v.append value ∧
    (v.InsertAt v.End value).1.size = (v.append value).size := by
  have hdata : (v.InsertAt v.End value).1.data = v.data ++ [value] := by
    rw [v.InsertAt_data v.End value (le_refl _)]
    show v.data.take v.data.length ++ value :: v.data.drop v.data.length = _
    rw [List.take_length, List.drop_length]
  have hq : (v.InsertAt v.End value).1 = v.append value :=
    SmallVector.ext hdata
  exact ⟨hq, by rw [hq]⟩

/-- Claim C2: `Include(v)` on a container not containing `v` appends `v`
(size grows by one, prior elements unchanged) and returns `false`
("was not present"); on a container containing `v` it leaves the
container unchanged and returns `true` ("was present"); the boolean
reports prior membership with exactly this polarity. -/
theorem Include_spec {α : Type} [DecidableEq α] {S : Nat}
    (v : SmallVector α S) (item : α) :
    (item ∉ v.data →
      (v.Include item).1 = v.append item ∧
      (v.Include item).1.size = v.size + 1 ∧
      (∀ j, j < v.size → (v.Include item).1.elemAt j = v.elemAt j) ∧
      (v.Include item).2 = false) ∧
    (item ∈ v.data →
      (v.Include item).1 = v ∧ (v.Include item).2 = true) ∧
    ((v.Include item).2 = true ↔ item ∈ v.data) := by
  by_cases hm : item ∈ v.data
  · have hs : (SmallVector.findFirst item v.data).isSome = true :=
      (SmallVector.findFirst_isSome_iff item v.data).mpr hm
    refine ⟨fun hn => absurd hm hn, fun _ => ?_, ?_⟩
    · constructor
      · show (if (SmallVector.findFirst item v.data).isSome then v
            else v.append item) = v
        rw [hs, if_pos rfl]
      · show (SmallVector.findFirst item v.data).isSome = true
        exact hs
    · show (SmallVector.findFirst item v.data).isSome = true ↔ item ∈ v.data
      simp [hs, hm]
  · have hs : (SmallVector.findFirst item v.data).isSome = false := by
      rw [Bool.eq_false_iff]
      intro hc
      exact hm ((SmallVector.findFirst_isSome_iff item v.data).mp hc)
    refine ⟨fun _ => ?_, fun hmem => absurd hmem hm, ?_⟩
    · have h1 : (v.Include item).1 = v.append item := by
        show (if (SmallVector.findFirst item v.data).isSome then v
            else v.append item) = v.append item
        rw [hs]
        simp
      refine ⟨h1, ?_, ?_, ?_⟩
      · rw [h1]
        show (v.data ++ [item]).length = v.data.length + 1
        simp
      · intro j hj
        rw [h1]
        show (v.data ++ [item])[j]? = v.data[j]?
        rw [List.getElem?_append, if_pos (show j < v.data.length from hj)]
      · show (SmallVector.findFirst item v.data).isSome = false
        exact hs
    · show (SmallVector.findFirst item v.data).isSome = true ↔ item ∈ v.data
      rw [hs]
      simp [hm]

/-- Witness for C2: `[1, 2, 3].Include 4` inserts and reports `false`;
`[1, 2, 3].Include 2` leaves the container alone and reports `true`. -/
theorem Include_spec_witness :
    (4 : Nat) ∉ ([1, 2, 3] : List Nat) ∧
    ((⟨[1, 2, 3]⟩ : SmallVector Nat 4).Include 4).2 = false ∧
    (2 : Nat) ∈ ([1, 2, 3] : List Nat) ∧
    ((⟨[1, 2, 3]⟩ : SmallVector Nat 4).Include 2).2 = true :=
  ⟨by decide,
   ((Include_spec (⟨[1, 2, 3]⟩ : SmallVector Nat 4) 4).1 (by decide)).2.2.2,
   by decide,
   ((Include_spec (⟨[1, 2, 3]⟩ : SmallVector Nat 4) 2).2.1 (by decide)).2⟩

/-- Claim C3: `FindIndex(v)` returns the lowest index `i` in `[0, size)`
whose element equals `v` — whenever some element equals `v`, the result
is that lowest index; when no element equals `v` it returns the
"not found" result `-1`; on an empty container it always returns `-1`. -/
theorem FindIndex_lowest {α : Type} [DecidableEq α] {S : Nat}
    (v : SmallVector α S) (item : α) :
    (item ∈ v.data →
      ∃ i : Nat, v.FindIndex item = (i : Int) ∧ i < v.size ∧
        v.elemAt i = some item ∧
        ∀ j, j < i → v.elemAt j ≠ some item) ∧
    ((∀ x ∈ v.data, x ≠ item) → v.FindIndex item = -1) ∧
    (v.size = 0 → v.FindIndex item = -1) := by
  refine ⟨?_, ?_, ?_⟩
  · intro hm
    have hs : (SmallVector.findFirst item v.data).isSome :=
      (SmallVector.findFirst_isSome_iff item v.data).mpr hm
    cases hf : SmallVector.findFirst item v.data with
    | none =>
      rw [hf] at hs
      exact absurd hs (by simp)
    | some k =>
      obtain ⟨h1, h2⟩ := SmallVector.findFirst_spec_some item v.data k hf
      obtain ⟨hlt, _⟩ := List.getElem?_eq_some.mp h1
      refine ⟨k, ?_, hlt, h1, fun j hj => h2 j hj⟩
      unfold SmallVector.FindIndex
      rw [hf]
  · intro hall
    have hm : item ∉ v.data := fun hmem => hall item hmem rfl
    have hs : SmallVector.findFirst item v.data = none := by
      cases hf : SmallVector.findFirst item v.data with
      | none => rfl
      | some k =>
        exact absurd ((SmallVector.findFirst_isSome_iff item v.data).mp
          (by rw [hf]; rfl)) hm
    unfold SmallVector.FindIndex
    rw [hs]
  · intro h0
    have hnil : v.data = [] := List.length_eq_zero.mp h0
    unfold SmallVector.FindIndex
    rw [hnil]
    rfl

/-- Witness for C3: `7` is a member of `[5, 7, 7]`, and `FindIndex`
returns its lowest occurrence. -/
theorem FindIndex_lowest_witness :
    (7 : Nat) ∈ (⟨[5, 7, 7]⟩ : SmallVector Nat 4).data ∧
    ∃ i : Nat, (⟨[5, 7, 7]⟩ : SmallVector Nat 4).FindIndex 7 = (i : Int) ∧
      i < (⟨[5, 7, 7]⟩ : SmallVector Nat 4).size ∧
      (⟨[5, 7, 7]⟩ : SmallVector Nat 4).elemAt i = some 7 ∧
      ∀ j, j < i → (⟨[5, 7, 7]⟩ : SmallVector Nat 4).elemAt j ≠ some 7 :=
  ⟨by decide,
   (FindIndex_lowest (⟨[5, 7, 7]⟩ : SmallVector Nat 4) 7).1 (by decide)⟩

/-- Claim C9: the "not found" result of `FindIndex` is concretely `-1`;
every "found" result is nonnegative and strictly less than the size; and
`FindIndex(v) ≥ 0` holds exactly when some element equals `v`. -/
theorem FindIndex_sentinel {α : Type} [DecidableEq α] {S : Nat}
    (v : SmallVector α S) (item : α) :
    (v.FindIndex item = -1 ∨
      (0 ≤ v.FindIndex item ∧ v.FindIndex item < (v.size : Int))) ∧
    (item ∉ v.data → v.FindIndex item = -1) ∧
    (0 ≤ v.FindIndex item ↔ ∃ x ∈ v.data, x = item) := by
  cases hf : SmallVector.findFirst item v.data with
  | none =>
    have hF : v.FindIndex item = -1 := by
      unfold SmallVector.FindIndex
      rw [hf]
    have hm : item ∉ v.data := by
      rw [← SmallVector.findFirst_isSome_iff item v.data, hf]
      simp
    refine ⟨Or.inl hF, fun _ => hF, ?_⟩
    rw [hF]
    constructor
    · intro hc
      exact absurd hc (by omega)
    · rintro ⟨x, hx, rfl⟩
      exact absurd hx hm
  | some k =>
    have hF : v.FindIndex item = (k : Int) := by
      unfold SmallVector.FindIndex
      rw [hf]
    have hm : item ∈ v.data :=
      (SmallVector.findFirst_isSome_iff item v.data).mp (by rw [hf]; rfl)
    obtain ⟨h1, _⟩ := SmallVector.findFirst_spec_some item v.data k hf
    obtain ⟨hlt, _⟩ := List.getElem?_eq_some.mp h1
    refine ⟨Or.inr ⟨by rw [hF]; omega, by rw [hF]; exact_mod_cast hlt⟩,
      fun hn => absurd hm hn, ?_⟩
    rw [hF]
    constructor
    · intro _
      exact ⟨item, hm, rfl⟩
    · intro _
      omega

/-- Witness for C9: `9` is absent from `[1, 2]`, so `FindIndex` is `-1`. -/
theorem FindIndex_sentinel_witness :
    (9 : Nat) ∉ ([1, 2] : List Nat) ∧
    (⟨[1, 2]⟩ : SmallVector Nat 4).FindIndex 9 = -1 :=
  ⟨by decide,
   (FindIndex_sentinel (⟨[1, 2]⟩ : SmallVector Nat 4) 9).2.1 (by decide)⟩

/-- Claim C4: for the owning containers, `Clear()` (the destructor does
the same) applies the variant's teardown to every stored pointer exactly
once — `free` only releases the allocation, `delete` also runs the
destructor — teardown of a null pointer is a safe no-op, the container is
empty afterwards, and it remains usable for further append/clear
cycles. -/
theorem owningClear_spec {S : Nat} (h : Heap) (v : SmallVector Ptr S)
    (a : Nat) :
    (AutoFreeClear h v).2.size = 0 ∧
    ((AutoFreeClear h v).1 a).allocCount
      = (h a).allocCount - v.data.count (some a) ∧
    ((AutoFreeClear h v).1 a).dtorRuns = (h a).dtorRuns ∧
    (AutoDeleteClear h v).2.size = 0 ∧
    ((AutoDeleteClear h v).1 a).allocCount
      = (h a).allocCount - v.data.count (some a) ∧
    ((AutoDeleteClear h v).1 a).dtorRuns
      = (h a).dtorRuns + v.data.count (some a) ∧
    (v.data.Nodup → some a ∈ v.data → v.data.count (some a) = 1) ∧
    freeCall h none = h ∧
    deleteCall h none = h ∧
    (∀ (h2 : Heap) (p : Ptr),
      (AutoFreeClear h2 ((AutoFreeClear h v).2.append p)).2.size = 0 ∧
      (AutoFreeClear h2 ((AutoFreeClear h v).2.append p)).1
        = freeCall h2 p) := by
  refine ⟨rfl, ?_, ?_, rfl, ?_, ?_, ?_, rfl, rfl, fun h2 p => ⟨rfl, rfl⟩⟩
  · show (v.data.foldl freeCall h a).allocCount = _
    rw [foldl_freeCall_apply]
  · show (v.data.foldl freeCall h a).dtorRuns = _
    rw [foldl_freeCall_apply]
  · show (v.data.foldl deleteCall h a).allocCount = _
    rw [foldl_deleteCall_apply]
  · show (v.data.foldl deleteCall h a).dtorRuns = _
    rw [foldl_deleteCall_apply]
  · intro hnd hmem
    exact count_one_of_nodup_mem v.data (some a) hnd hmem

/-- Witness for C4: three stored pointers, one of them null, all
distinct — address `5` is freed exactly once. -/
theorem owningClear_spec_witness :
    (⟨[some 5, none, some 7]⟩ : SmallVector Ptr 4).data.Nodup ∧
    some 5 ∈ (⟨[some 5, none, some 7]⟩ : SmallVector Ptr 4).data ∧
    (⟨[some 5, none, some 7]⟩ : SmallVector Ptr 4).data.count (some 5) = 1 :=
  ⟨by decide, by decide,
   (owningClear_spec (fun _ => ⟨1, 0⟩)
     (⟨[some 5, none, some 7]⟩ : SmallVector Ptr 4) 5).2.2.2.2.2.2.1
     (by decide) (by decide)⟩

/-- Claim C6: `grow(buffer, count)` extends a buffer of size `n` to size
`n + count`, leaves the old elements in place, default-constructs the
`count` new elements, and returns a handle to the first new element, at
index `n`. -/
theorem grow_spec {α : Type} [Inhabited α] (vec : List α) (num : Nat) :
    (grow vec num).1.length = vec.length + num ∧
    (grow vec num).2 = vec.length ∧
    (∀ j, j < vec.length → (grow vec num).1[j]? = vec[j]?) ∧
    (∀ j, j < num →
      (grow vec num).1[vec.length + j]? = some (default : α)) := by
  refine ⟨by simp [grow], rfl, ?_, ?_⟩
  · intro j hj
    show (vec ++ List.replicate num default)[j]? = vec[j]?
    rw [List.getElem?_append, if_pos hj]
  · intro j hj
    show (vec ++ List.replicate num default)[vec.length + j]? = some default
    rw [List.getElem?_append_right (by omega)]
    have hsub : vec.length + j - vec.length = j := by omega
    rw [hsub, List.getElem?_replicate, if_pos hj]

/-- Witness for C6: growing `[5, 6]` by three slots puts `default` at
offset `length + 1`. -/
theorem grow_spec_witness :
    1 < 3 ∧
    (grow ([5, 6] : List Nat) 3).1[([5, 6] : List Nat).length + 1]?
      = some (default : Nat) :=
  ⟨by decide, (grow_spec ([5, 6] : List Nat) 3).2.2.2 1 (by decide)⟩

/-- Claim C7: copy construction and assignment across different
growth-step parameters are well-defined and yield an element-wise equal
sequence of the same size; the growth-step parameter affects no
observable result of any operation. -/
theorem copy_growthstep_compat {α : Type} [DecidableEq α] [Inhabited α]
    (S X : Nat) (other : SmallVector α X) (self : SmallVector α S) :
    (SmallVector.copyCtor other : SmallVector α S).size = other.size ∧
    (∀ i, (SmallVector.copyCtor other : SmallVector α S).elemAt i
      = other.elemAt i) ∧
    (self.assign other).size = other.size ∧
    (∀ i, (self.assign other).elemAt i = other.elemAt i) ∧
    (∀ (d : List α) (item : α),
      SmallVector.FindIndex (⟨d⟩ : SmallVector α S) item
        = SmallVector.FindIndex (⟨d⟩ : SmallVector α X) item) ∧
    (∀ (d : List α) (item : α),
      (SmallVector.Include (⟨d⟩ : SmallVector α S) item).1.data
        = (SmallVector.Include (⟨d⟩ : SmallVector α X) item).1.data ∧
      (SmallVector.Include (⟨d⟩ : SmallVector α S) item).2
        = (SmallVector.Include (⟨d⟩ : SmallVector α X) item).2) ∧
    (∀ (d : List α) (i : Nat) (value : α),
      (SmallVector.InsertAt (⟨d⟩ : SmallVector α S) i value).1.data
        = (SmallVector.InsertAt (⟨d⟩ : SmallVector α X) i value).1.data) ∧
    (∀ (d : List α) (x : α),
      (SmallVector.append (⟨d⟩ : SmallVector α S) x).data
        = (SmallVector.append (⟨d⟩ : SmallVector α X) x).data) ∧
    (∀ d : List α,
      SmallVector.size (⟨d⟩ : SmallVector α S)
        = SmallVector.size (⟨d⟩ : SmallVector α X) ∧
      SmallVector.End (⟨d⟩ : SmallVector α S)
        = SmallVector.End (⟨d⟩ : SmallVector α X) ∧
      SmallVector.Begin (⟨d⟩ : SmallVector α S)
        = SmallVector.Begin (⟨d⟩ : SmallVector α X)) :=
  by
  refine ⟨rfl, fun _ => rfl, rfl, fun _ => rfl, fun _ _ => rfl,
    fun d item => ⟨?_, rfl⟩, fun _ _ _ => rfl, fun _ _ => rfl,
    fun _ => ⟨rfl, rfl, rfl⟩⟩
  show (if (SmallVector.findFirst item d).isSome
      then (⟨d⟩ : SmallVector α S) else (⟨d⟩ : SmallVector α S).append item).data
    = (if (SmallVector.findFirst item d).isSome
      then (⟨d⟩ : SmallVector α X) else (⟨d⟩ : SmallVector α X).append item).data
  cases (SmallVector.findFirst item d).isSome <;> rfl

/-- Claim C8: in every container state, `End() - Begin()` equals the
size, and for every index `i` in `[0, size)` the element at
`Begin() + i` is the (live) element at index `i`. -/
theorem Begin_End_inv {α : Type} {S : Nat} (v : SmallVector α S) :
    v.End - v.Begin = v.size ∧
    (∀ i, i < v.size →
      v.elemAt (v.Begin + i) = v.data[i]? ∧
      (v.elemAt (v.Begin + i)).isSome) := by
  refine ⟨rfl, fun i hi => ?_⟩
  have hz : v.Begin + i = i := Nat.zero_add i
  constructor
  · show v.data[v.Begin + i]? = v.data[i]?
    rw [hz]
  · show (v.data[v.Begin + i]?).isSome
    rw [hz, List.getElem?_eq_getElem (show i < v.data.length from hi)]
    rfl

/-- Witness for C8 on the one-element container `[7]`. -/
theorem Begin_End_inv_witness :
    0 < (⟨[7]⟩ : SmallVector Nat 2).size ∧
    ((⟨[7]⟩ : SmallVector Nat 2).elemAt ((⟨[7]⟩ : SmallVector Nat 2).Begin + 0)
        = (⟨[7]⟩ : SmallVector Nat 2).data[0]? ∧
      ((⟨[7]⟩ : SmallVector Nat 2).elemAt
        ((⟨[7]⟩ : SmallVector Nat 2).Begin + 0)).isSome) :=
  ⟨by decide, (Begin_End_inv (⟨[7]⟩ : SmallVector Nat 2)).2 0 (by decide)⟩

/-- Claim C10: the assertion `Begin() <= item && item <= End()` at the
top of `Insert` passes exactly when the position is a valid slot or the
end position, in which case the insertion proceeds; for any position
outside `[Begin, End]` it fails before any mutation occurs. -/
theorem Insert_assert_spec {α : Type} [Inhabited α] {S : Nat}
    (v : SmallVector α S) (item : Int) :
    ((v.InsertChecked item).isSome ↔
      ((0 ≤ item ∧ item < (v.size : Int)) ∨ item = (v.size : Int))) ∧
    (∀ r, v.InsertChecked item = some r → r = v.Insert item.toNat) ∧
    (¬ (0 ≤ item ∧ item ≤ (v.size : Int)) → v.InsertChecked item = none) := by
  have hsz : (v.size : Int) = (v.data.length : Int) := rfl
  unfold SmallVector.InsertChecked
  by_cases hc : 0 ≤ item ∧ item ≤ (v.data.length : Int)
  · rw [if_pos hc]
    refine ⟨?_, ?_, ?_⟩
    · simp only [Option.isSome_some, true_iff]
      omega
    · intro r hr
      exact (Option.some_injective _ hr).symm
    · intro hn
      exact absurd hc (by rw [hsz] at hn; exact hn)
  · rw [if_neg hc]
    refine ⟨?_, ?_, fun _ => rfl⟩
    · simp only [Option.isSome_none, Bool.false_eq_true, false_iff]
      omega
    · intro r hr
      exact absurd hr (by simp)

/-- Witness for C10: position `-1` on `[1]` fails the assertion and
produces no mutated container. -/
theorem Insert_assert_spec_witness :
    ¬ ((0 : Int) ≤ -1 ∧ (-1 : Int) ≤ ((⟨[1]⟩ : SmallVector Nat 4).size : Int)) ∧
    (⟨[1]⟩ : SmallVector Nat 4).InsertChecked (-1) = none :=
  ⟨by decide,
   (Insert_assert_spec (⟨[1]⟩ : SmallVector Nat 4) (-1)).2.2 (by decide)⟩
